import Mathlib

/-!
Verification of the EXIF/TIFF IFD decoder in src/main.rs: byte search,
12-byte IFD record decoding, value resolution, and formatting.

Byte buffers are modelled as `List Nat` whose elements are below 256.
Rust panics (out-of-bounds slicing, caught by `catch_unwind`) are modelled
as `Option`/`Except` failure values, made explicit as the spec requires.
-/

namespace HelloExif

/-- Little-endian reconstruction of a 16-bit value from a byte slice,
as `u16::from_le_bytes` does in `impl From<&[u8]> for IFD`. -/
def u16_from_le_bytes (bs : List Nat) : Nat :=
  bs.getD 0 0 + 256 * bs.getD 1 0

/-- Little-endian reconstruction of a 32-bit value, as `u32::from_le_bytes`. -/
def u32_from_le_bytes (bs : List Nat) : Nat :=
  bs.getD 0 0 + 256 * bs.getD 1 0 + 65536 * bs.getD 2 0 + 16777216 * bs.getD 3 0

/-- `u16::to_le_bytes`, used by the `fmt::LowerHex` implementation. -/
def u16_to_le_bytes (n : Nat) : List Nat :=
  [n % 256, n / 256 % 256]

/-- `u32::to_le_bytes`, used by the `fmt::LowerHex` implementation. -/
def u32_to_le_bytes (n : Nat) : List Nat :=
  [n % 256, n / 256 % 256, n / 65536 % 256, n / 16777216 % 256]

/-- The `IFD` struct of src/main.rs: tag and tag_type are u16 in the source,
count and value_offset are u32; decoding only ever stores values in range. -/
structure IFD where
  tag : Nat
  tag_type : Nat
  count : Nat
  value_offset : Nat
deriving DecidableEq

/-- `impl From<&[u8]> for IFD`: the four fields are copied from the byte
ranges v[..2], v[2..4], v[4..8] and v[8..] and reconstructed little-endian.
The source's `copy_from_slice` requires a slice of length exactly 12; the
only caller, `from_offset`, always passes one. -/
def IFD.fromBytes (v : List Nat) : IFD where
  tag := u16_from_le_bytes (v.take 2)
  tag_type := u16_from_le_bytes ((v.drop 2).take 2)
  count := u32_from_le_bytes ((v.drop 4).take 4)
  value_offset := u32_from_le_bytes (v.drop 8)

/-- Decode failure: in the source, `from_offset` panics through the
out-of-bounds slice `buf[offset..offset+12]`; the panic is modelled as an
explicit out-of-bounds error result. -/
inductive DecodeError where
  | outOfBounds
deriving DecidableEq

/-- `IFD::from_offset`: decode the 12-byte record starting at `offset`.
The slice `buf[offset..offset+12]` is in bounds exactly when
`offset + 12 <= buf.length`; outside that, the source panics, modelled as
`DecodeError.outOfBounds`. -/
def IFD.from_offset (buf : List Nat) (offset : Nat) : Except DecodeError IFD :=
  if offset + 12 ≤ buf.length then
    Except.ok (IFD.fromBytes ((buf.drop offset).take 12))
  else
    Except.error DecodeError.outOfBounds

/-- Lowercase hexadecimal digit character for a value below 16. -/
def hexDigitChar (n : Nat) : Char :=
  if n < 10 then Char.ofNat (48 + n) else Char.ofNat (87 + n)

/-- Two-digit lowercase hexadecimal rendering of a byte (format :02x). -/
def byteToHex2 (n : Nat) : String :=
  String.mk [hexDigitChar (n / 16 % 16), hexDigitChar (n % 16)]

/-- Rust debug-array rendering of a byte array under the :02x? format:
an opening bracket, the two-digit hex bytes separated by comma-space, and
a closing bracket. -/
def debugHexBytes (bs : List Nat) : String :=
  ("[") ++ String.intercalate (", ") (bs.map byteToHex2) ++ ("]")

/-- `impl fmt::LowerHex for IFD`: the four fields are re-encoded with
to_le_bytes and the four debug-array groups are concatenated without
separators. -/
def IFD.lowerHex (r : IFD) : String :=
  debugHexBytes (u16_to_le_bytes r.tag) ++ debugHexBytes (u16_to_le_bytes r.tag_type) ++
    debugHexBytes (u32_to_le_bytes r.count) ++ debugHexBytes (u32_to_le_bytes r.value_offset)

/-- `impl fmt::Display for IFD`: the four fields in decimal, separated by
comma-space. -/
def IFD.display (r : IFD) : String :=
  Nat.repr r.tag ++ (", ") ++ Nat.repr r.tag_type ++ (", ") ++
    Nat.repr r.count ++ (", ") ++ Nat.repr r.value_offset

/-- The little-endian re-encoding of the four decoded fields (2, 2, 4 and
4 bytes), concatenated in field order; this is the byte sequence the
`fmt::LowerHex` implementation renders. -/
def IFD.encodeFields (r : IFD) : List Nat :=
  u16_to_le_bytes r.tag ++ u16_to_le_bytes r.tag_type ++
    u32_to_le_bytes r.count ++ u32_to_le_bytes r.value_offset

/-- Mirror of `std::str::Utf8Error`: how many leading bytes were valid, and
the length of the invalid sequence (`none` means the input ended with an
incomplete sequence). -/
structure Utf8Error where
  valid_up_to : Nat
  error_len : Option Nat
deriving DecidableEq

/-- Range check for the first continuation byte of a multi-byte UTF-8
sequence, which depends on the lead byte (rejecting overlong encodings,
surrogates and code points above 0x10FFFF), as in Rust's UTF-8 validation. -/
def leadRangeOK (b0 b1 : Nat) : Bool :=
  if b0 = 224 then decide (160 ≤ b1 ∧ b1 < 192)
  else if b0 = 237 then decide (128 ≤ b1 ∧ b1 < 160)
  else if b0 = 240 then decide (144 ≤ b1 ∧ b1 < 192)
  else if b0 = 244 then decide (128 ≤ b1 ∧ b1 < 144)
  else decide (128 ≤ b1 ∧ b1 < 192)

/-- UTF-8 validation and decoding of a byte list, as `str::from_utf8`
performs it; `i` is the byte index of the current position, reported in
the error as `valid_up_to`. -/
def utf8DecodeFrom : List Nat → Nat → Except Utf8Error (List Char)
  | [], _ => Except.ok []
  | b0 :: rest, i =>
    if b0 < 128 then
      (utf8DecodeFrom rest (i + 1)).map (fun cs => Char.ofNat b0 :: cs)
    else if b0 < 194 then
      Except.error ⟨i, some 1⟩
    else if b0 < 224 then
      match rest with
      | [] => Except.error ⟨i, none⟩
      | b1 :: rest1 =>
        if 128 ≤ b1 ∧ b1 < 192 then
          (utf8DecodeFrom rest1 (i + 2)).map
            (fun cs => Char.ofNat ((b0 - 192) * 64 + (b1 - 128)) :: cs)
        else Except.error ⟨i, some 1⟩
    else if b0 < 240 then
      match rest with
      | [] => Except.error ⟨i, none⟩
      | b1 :: rest1 =>
        if leadRangeOK b0 b1 then
          match rest1 with
          | [] => Except.error ⟨i, none⟩
          | b2 :: rest2 =>
            if 128 ≤ b2 ∧ b2 < 192 then
              (utf8DecodeFrom rest2 (i + 3)).map
                (fun cs => Char.ofNat ((b0 - 224) * 4096 + (b1 - 128) * 64 + (b2 - 128)) :: cs)
            else Except.error ⟨i, some 2⟩
        else Except.error ⟨i, some 1⟩
    else if b0 < 245 then
      match rest with
      | [] => Except.error ⟨i, none⟩
      | b1 :: rest1 =>
        if leadRangeOK b0 b1 then
          match rest1 with
          | [] => Except.error ⟨i, none⟩
          | b2 :: rest2 =>
            if 128 ≤ b2 ∧ b2 < 192 then
              match rest2 with
              | [] => Except.error ⟨i, none⟩
              | b3 :: rest3 =>
                if 128 ≤ b3 ∧ b3 < 192 then
                  (utf8DecodeFrom rest3 (i + 4)).map
                    (fun cs =>
                      Char.ofNat ((b0 - 240) * 262144 + (b1 - 128) * 4096 +
                        (b2 - 128) * 64 + (b3 - 128)) :: cs)
                else Except.error ⟨i, some 3⟩
            else Except.error ⟨i, some 2⟩
        else Except.error ⟨i, some 1⟩
    else Except.error ⟨i, some 1⟩

/-- Display form of `std::str::Utf8Error`, as interpolated by
`print_offset_as_string` in its error branch. -/
def utf8ErrorMsg (e : Utf8Error) : String :=
  match e.error_len with
  | some n =>
    ("invalid utf-8 sequence of ") ++ Nat.repr n ++ (" bytes from index ") ++
      Nat.repr e.valid_up_to
  | none => ("incomplete utf-8 byte sequence from index ") ++ Nat.repr e.valid_up_to

/-- A single typewriter quote character, used by the success branch of
`print_offset_as_string`. -/
def squote : String := String.singleton (Char.ofNat 39)

/-- `print_offset_as_string`: slice `buf[offset..offset+length]` and try to
read it as UTF-8, printing the quoted string or the UTF-8 error line.
`none` models the panic raised by an out-of-bounds slice; the result string
is the line the function prints. -/
def print_offset_as_string (buf : List Nat) (offset length : Nat) : Option String :=
  if offset + length ≤ buf.length then
    match utf8DecodeFrom ((buf.drop offset).take length) 0 with
    | Except.ok cs => some (squote ++ String.mk cs ++ squote)
    | Except.error e => some (("Error while printing range: ") ++ utf8ErrorMsg e)
  else none

/-- The diagnostic `IFD::print_value` prints when it catches a panic. -/
def caught_message : String :=
  "Caught panic while printing value -- values may have been stored in other endianness."

/-- `IFD::print_value`: resolve the record's value at
`header_offset + value_offset` with byte length `count`; the source's
`catch_unwind` turns the out-of-bounds panic into the caught-panic
diagnostic. The result is the line the call prints. -/
def IFD.print_value (r : IFD) (buf : List Nat) (header_offset : Nat) : String :=
  match print_offset_as_string buf (header_offset + r.value_offset) r.count with
  | some s => s
  | none => caught_message

/-- The window-versus-pattern comparison inside `find`: zip the window with
the pattern and fold pairwise equality with conjunction. -/
def matchSeq (w seq : List Nat) : Bool :=
  (w.zip seq).foldl (fun acc p => acc && (p.1 == p.2)) true

/-- `find`: scan the windows of `buf` of length `seq.length` left to right
(there are `buf.length + 1 - seq.length` of them) and return the index of
the first one matching `seq`; `unwrap_or` turns no-match into 0. -/
def find (buf seq : List Nat) : Nat :=
  match (List.range (buf.length + 1 - seq.length)).find?
      (fun i => matchSeq ((buf.drop i).take seq.length) seq) with
  | some i => i
  | none => 0

/-- `chunks(2)` over the character list of the input string. -/
def chunks2 : List Char → List (List Char)
  | [] => []
  | [a] => [[a]]
  | a :: b :: rest => [a, b] :: chunks2 rest

/-- Hexadecimal digit value of a character, as `from_str_radix` computes it
(0-9, a-f and A-F). -/
def hexDigitVal (c : Char) : Option Nat :=
  if 48 ≤ c.toNat ∧ c.toNat ≤ 57 then some (c.toNat - 48)
  else if 97 ≤ c.toNat ∧ c.toNat ≤ 102 then some (c.toNat - 87)
  else if 65 ≤ c.toNat ∧ c.toNat ≤ 70 then some (c.toNat - 55)
  else none

/-- Digit-accumulation loop of `u8::from_str_radix` without a sign: each
step is a checked multiply by 16 and checked add, failing on overflow past
255 or on a non-digit. -/
def u8_parse_digits : List Char → Nat → Option Nat
  | [], acc => some acc
  | c :: rest, acc =>
    match hexDigitVal c with
    | none => none
    | some d =>
      if acc * 16 + d ≤ 255 then u8_parse_digits rest (acc * 16 + d) else none

/-- Digit-accumulation loop of `u8::from_str_radix` after a minus sign:
checked multiply and checked subtract, failing on any underflow. -/
def u8_parse_digits_neg : List Char → Nat → Option Nat
  | [], acc => some acc
  | c :: rest, acc =>
    match hexDigitVal c with
    | none => none
    | some d =>
      if acc * 16 ≤ 255 ∧ d ≤ acc * 16 then u8_parse_digits_neg rest (acc * 16 - d)
      else none

/-- `u8::from_str_radix(s, 16)`: an optional leading plus or minus sign
followed by at least one digit. -/
def u8_from_str_radix16 : List Char → Option Nat
  | [] => none
  | c :: rest =>
    if c.toNat = 43 then
      match rest with
      | [] => none
      | _ :: _ => u8_parse_digits rest 0
    else if c.toNat = 45 then
      match rest with
      | [] => none
      | _ :: _ => u8_parse_digits_neg rest 0
    else u8_parse_digits (c :: rest) 0

/-- One chunk of `bytes_from_str`: the first character, then the second
character when present or the padding character 0 (toNat 48), parsed in
base 16 with parse failure defaulted to 0 by `unwrap_or`. -/
def byteOfChunk (chunk : List Char) : Nat :=
  match chunk with
  | [] => (u8_from_str_radix16 []).getD 0
  | [a] => (u8_from_str_radix16 [a, Char.ofNat 48]).getD 0
  | a :: b :: _ => (u8_from_str_radix16 [a, b]).getD 0

/-- `bytes_from_str`: chunk the characters in pairs and parse each chunk. -/
def bytes_from_str (s : List Char) : List Nat :=
  (chunks2 s).map byteOfChunk

/-- The 12-byte scenario buffer used in the spec's record-decoding
scenario. -/
def scenarioBytes : List Nat :=
  [1, 0, 2, 0, 5, 0, 0, 0, 8, 0, 0, 0]

/-- Reading position `i` of a dropped list reads position `n + i` of the
original. -/
theorem getD_drop_eq (l : List Nat) (n i : Nat) :
    (l.drop n).getD i 0 = l.getD (n + i) 0 := by
  simp [List.getD_eq_getElem?_getD, List.getElem?_drop]

/-- Reading a position inside the taken prefix reads the original list. -/
theorem getD_take_eq (l : List Nat) (m i : Nat) (h : i < m) :
    (l.take m).getD i 0 = l.getD i 0 := by
  simp [List.getD_eq_getElem?_getD, List.getElem?_take, h]

/-- C1: decoding an IFD record at any in-bounds offset yields the four
fields as the little-endian 16-bit integers of bytes [offset, offset+2) and
[offset+2, offset+4), and the little-endian 32-bit integers of bytes
[offset+4, offset+8) and [offset+8, offset+12). -/
theorem ifd_decode_le_fields (buf : List Nat) (offset : Nat)
    (h : offset + 12 ≤ buf.length) :
    IFD.from_offset buf offset = Except.ok
      { tag := buf.getD offset 0 + 256 * buf.getD (offset + 1) 0,
        tag_type := buf.getD (offset + 2) 0 + 256 * buf.getD (offset + 3) 0,
        count := buf.getD (offset + 4) 0 + 256 * buf.getD (offset + 5) 0 +
          65536 * buf.getD (offset + 6) 0 + 16777216 * buf.getD (offset + 7) 0,
        value_offset := buf.getD (offset + 8) 0 + 256 * buf.getD (offset + 9) 0 +
          65536 * buf.getD (offset + 10) 0 + 16777216 * buf.getD (offset + 11) 0 } := by
  unfold IFD.from_offset
  rw [if_pos h]
  simp [IFD.fromBytes, u16_from_le_bytes, u32_from_le_bytes, getD_take_eq, getD_drop_eq]

/-- C1 witness: the spec scenario: decoding the 12-byte buffer
01 00 02 00 05 00 00 00 08 00 00 00 at offset 0 yields tag=1, tag_type=2,
count=5, value_offset=8. -/
theorem ifd_decode_le_fields_witness :
    IFD.from_offset scenarioBytes 0 = Except.ok ⟨1, 2, 5, 8⟩ :=
  (ifd_decode_le_fields scenarioBytes 0 (by decide)).trans (by rfl)

/-- C5: on a buffer with fewer than offset + 12 bytes, the decode returns
the out-of-bounds error (the modelled form of the slice panic) and reads
nothing. -/
theorem decode_out_of_bounds (buf : List Nat) (offset : Nat)
    (h : buf.length < offset + 12) :
    IFD.from_offset buf offset = Except.error DecodeError.outOfBounds := by
  unfold IFD.from_offset
  rw [if_neg (by omega)]

/-- C5 witness: decoding the empty buffer at offset 0 is out of bounds. -/
theorem decode_out_of_bounds_witness :
    IFD.from_offset [] 0 = Except.error DecodeError.outOfBounds :=
  decode_out_of_bounds [] 0 (by decide)

/-- C8: the display rendering of a record is the four fields as native
unsigned decimal values separated by comma-space, and on the decoded
scenario record it is the string 1, 2, 5, 8. -/
theorem display_decimal (r : IFD) :
    IFD.display r =
      Nat.repr r.tag ++ (", ") ++ Nat.repr r.tag_type ++ (", ") ++
        Nat.repr r.count ++ (", ") ++ Nat.repr r.value_offset ∧
    IFD.display (IFD.fromBytes scenarioBytes) = ("1, 2, 5, 8") :=
  ⟨rfl, by rfl⟩

/-- C9: the hex rendering of a record is the debug-array rendering of each
field's own little-endian bytes (2, 2, 4, 4), concatenated without
separators, each byte as two lowercase hex digits; on the decoded scenario
record it is [01, 00][02, 00][05, 00, 00, 00][08, 00, 00, 00]. -/
theorem lowerHex_le_groups (r : IFD) :
    IFD.lowerHex r =
      debugHexBytes (u16_to_le_bytes r.tag) ++ debugHexBytes (u16_to_le_bytes r.tag_type) ++
        debugHexBytes (u32_to_le_bytes r.count) ++
        debugHexBytes (u32_to_le_bytes r.value_offset) ∧
    IFD.lowerHex (IFD.fromBytes scenarioBytes) =
      ("[01, 00][02, 00][05, 00, 00, 00][08, 00, 00, 00]") :=
  ⟨rfl, by rfl⟩

/-- C3: decoding any 12-byte slice and re-encoding the four fields back to
little-endian bytes (2 for tag, 2 for tag_type, 4 for count, 4 for
value_offset, in order) reproduces the slice exactly. -/
theorem decode_encode_roundtrip (S : List Nat) (hlen : S.length = 12)
    (hb : ∀ b ∈ S, b < 256) :
    (IFD.fromBytes S).encodeFields = S := by
  rcases S with _ | ⟨b0, S⟩; · simp at hlen
  rcases S with _ | ⟨b1, S⟩; · simp at hlen
  rcases S with _ | ⟨b2, S⟩; · simp at hlen
  rcases S with _ | ⟨b3, S⟩; · simp at hlen
  rcases S with _ | ⟨b4, S⟩; · simp at hlen
  rcases S with _ | ⟨b5, S⟩; · simp at hlen
  rcases S with _ | ⟨b6, S⟩; · simp at hlen
  rcases S with _ | ⟨b7, S⟩; · simp at hlen
  rcases S with _ | ⟨b8, S⟩; · simp at hlen
  rcases S with _ | ⟨b9, S⟩; · simp at hlen
  rcases S with _ | ⟨b10, S⟩; · simp at hlen
  rcases S with _ | ⟨b11, S⟩; · simp at hlen
  rcases S with _ | ⟨b12, S⟩
  · simp only [List.mem_cons, List.not_mem_nil, or_false, forall_eq_or_imp, forall_eq] at hb
    simp only [IFD.encodeFields, IFD.fromBytes, u16_from_le_bytes, u32_from_le_bytes,
      u16_to_le_bytes, u32_to_le_bytes, List.take, List.drop, List.getD, List.get?,
      List.cons_append, List.nil_append, List.cons.injEq, and_true, Option.getD_some]
    omega
  · simp at hlen

/-- C3 witness: round-trip on the concrete scenario slice. -/
theorem decode_encode_roundtrip_witness :
    (IFD.fromBytes scenarioBytes).encodeFields = scenarioBytes :=
  decode_encode_roundtrip scenarioBytes (by rfl)
    (by intro b hb; simp [scenarioBytes] at hb; omega)

/-- C2: resolving a record's value never aborts the run: when the computed
range header_offset + value_offset .. + count lies outside the buffer the
result is the caught-panic diagnostic line, and when the range is in bounds
but its bytes are not valid UTF-8 the result is the UTF-8 error diagnostic
line; in both cases a value is produced and the flow continues. -/
theorem resolve_never_fatal (r : IFD) (buf : List Nat) (header_offset : Nat) :
    (buf.length < header_offset + r.value_offset + r.count →
      IFD.print_value r buf header_offset = caught_message) ∧
    (∀ e, header_offset + r.value_offset + r.count ≤ buf.length →
      utf8DecodeFrom ((buf.drop (header_offset + r.value_offset)).take r.count) 0 =
        Except.error e →
      IFD.print_value r buf header_offset =
        ("Error while printing range: ") ++ utf8ErrorMsg e) := by
  constructor
  · intro h
    unfold IFD.print_value print_offset_as_string
    rw [if_neg (by omega)]
  · intro e hin herr
    unfold IFD.print_value print_offset_as_string
    rw [if_pos hin, herr]

/-- C2 witness: a record whose count reaches past the empty buffer resolves
to the caught-panic diagnostic. -/
theorem resolve_never_fatal_witness :
    IFD.print_value ⟨0, 0, 1, 0⟩ [] 0 = caught_message :=
  (resolve_never_fatal ⟨0, 0, 1, 0⟩ [] 0).1 (by decide)

/-- C6: when the computed range lies within the buffer and its bytes decode
as UTF-8, the resolved value is exactly that decoded string wrapped in
single quotes. -/
theorem resolve_valid_utf8 (r : IFD) (buf : List Nat) (header_offset : Nat)
    (cs : List Char)
    (hin : header_offset + r.value_offset + r.count ≤ buf.length)
    (hok : utf8DecodeFrom ((buf.drop (header_offset + r.value_offset)).take r.count) 0 =
      Except.ok cs) :
    IFD.print_value r buf header_offset = squote ++ String.mk cs ++ squote := by
  unfold IFD.print_value print_offset_as_string
  rw [if_pos hin, hok]

/-- C6 witness: the spec scenario: header_offset=0, value_offset=4,
count=3, buffer bytes 4..7 spelling abc resolve to the quoted string abc. -/
theorem resolve_valid_utf8_witness :
    IFD.print_value ⟨15, 2, 3, 4⟩ [0, 0, 0, 0, 97, 98, 99] 0 =
      squote ++ ("abc") ++ squote :=
  (resolve_valid_utf8 ⟨15, 2, 3, 4⟩ [0, 0, 0, 0, 97, 98, 99] 0
    [Char.ofNat 97, Char.ofNat 98, Char.ofNat 99] (by decide) (by rfl)).trans (by decide)

/-- Folding pairwise conjunction from an accumulator equals the accumulator
conjoined with `all`. -/
theorem foldl_and_eq (f : Nat × Nat → Bool) (l : List (Nat × Nat)) (b : Bool) :
    l.foldl (fun acc p => acc && f p) b = (b && l.all f) := by
  induction l generalizing b with
  | nil => simp
  | cons x xs ih => simp [List.foldl_cons, List.all_cons, ih, Bool.and_assoc]

/-- For windows of the pattern's length, the zip-and-fold comparison of the
source is exactly list equality. -/
theorem matchSeq_iff (w seq : List Nat) (h : w.length = seq.length) :
    matchSeq w seq = true ↔ w = seq := by
  unfold matchSeq
  rw [foldl_and_eq, Bool.true_and]
  induction w generalizing seq with
  | nil =>
    cases seq with
    | nil => simp
    | cons b s => simp at h
  | cons a w ih =>
    cases seq with
    | nil => simp at h
    | cons b s =>
      simp only [List.zip_cons_cons, List.all_cons, Bool.and_eq_true, beq_iff_eq,
        List.cons.injEq]
      rw [ih s (by simpa using h)]

/-- `find?` over `range' s n` returns the least index satisfying the
predicate, given one below the upper bound with none before it. -/
theorem find?_range'_some (p : Nat → Bool) :
    ∀ (n s k : Nat), s ≤ k → k < s + n → p k = true →
      (∀ j, s ≤ j → j < k → p j = false) →
      (List.range' s n).find? p = some k := by
  intro n
  induction n with
  | zero => intro s k h1 h2 _ _; omega
  | succ n ih =>
    intro s k h1 h2 hp hmin
    rw [List.range'_succ]
    rcases Nat.eq_or_lt_of_le h1 with he | hlt
    · subst he
      simp [List.find?_cons, hp]
    · have hs : p s = false := hmin s le_rfl hlt
      simp only [List.find?_cons, hs]
      exact ih (s + 1) k hlt (by omega) hp (fun j hj1 hj2 => hmin j (by omega) hj2)

/-- `find?` over `range n` returns the least index satisfying the
predicate. -/
theorem find?_range_some (p : Nat → Bool) (n k : Nat) (hk : k < n)
    (hp : p k = true) (hmin : ∀ j < k, p j = false) :
    (List.range n).find? p = some k := by
  rw [List.range_eq_range']
  exact find?_range'_some p n 0 k (Nat.zero_le k) (by omega) hp
    (fun j _ hj => hmin j hj)

/-- C4: for a non-empty pattern occurring in the buffer, `find` returns the
offset of the leftmost window of the pattern's length whose bytes equal the
pattern element-wise. -/
theorem find_first_match (buf seq : List Nat) (k : Nat) (_hne : seq ≠ [])
    (hlen : k + seq.length ≤ buf.length)
    (hmatch : (buf.drop k).take seq.length = seq)
    (hfirst : ∀ j, j < k → (buf.drop j).take seq.length ≠ seq) :
    find buf seq = k := by
  have h2 : matchSeq ((buf.drop k).take seq.length) seq = true := by
    rw [matchSeq_iff]
    · exact hmatch
    · simp only [List.length_take, List.length_drop]
      omega
  have h3 : ∀ j, j < k →
      matchSeq ((buf.drop j).take seq.length) seq = false := by
    intro j hj
    rw [← Bool.not_eq_true]
    intro hc
    have hlenj : ((buf.drop j).take seq.length).length = seq.length := by
      simp only [List.length_take, List.length_drop]
      omega
    exact hfirst j hj ((matchSeq_iff _ _ hlenj).mp hc)
  unfold find
  rw [find?_range_some (fun i => matchSeq ((buf.drop i).take seq.length) seq)
    (buf.length + 1 - seq.length) k (by omega) h2 h3]

/-- C4 witness: the spec scenario: a buffer starting with the ASCII bytes
of II followed by the TIFF magic and filler; searching for 49 49 returns
offset 0. -/
theorem find_first_match_witness :
    find [73, 73, 42, 0, 255, 255] [73, 73] = 0 :=
  find_first_match [73, 73, 42, 0, 255, 255] [73, 73] 0 (by decide) (by decide)
    (by rfl) (fun j hj => absurd hj (Nat.not_lt_zero j))

/-- C7: for a non-empty pattern occurring nowhere in the buffer (also when
it is longer than the buffer), `find` returns the not-found sentinel 0, the
same value a genuine match at offset 0 produces. -/
theorem find_absent_sentinel (buf seq : List Nat) (_hne : seq ≠ [])
    (habs : ∀ k, k + seq.length ≤ buf.length →
      (buf.drop k).take seq.length ≠ seq) :
    find buf seq = 0 := by
  unfold find
  have hnone : (List.range (buf.length + 1 - seq.length)).find?
      (fun i => matchSeq ((buf.drop i).take seq.length) seq) = none := by
    rw [List.find?_eq_none]
    intro x hx
    rw [List.mem_range] at hx
    intro hc
    have hxlen : x + seq.length ≤ buf.length := by omega
    have hl : ((buf.drop x).take seq.length).length = seq.length := by
      simp only [List.length_take, List.length_drop]
      omega
    exact habs x hxlen ((matchSeq_iff _ _ hl).mp hc)
  rw [hnone]

/-- C7 witness: searching a 3-byte buffer for an absent byte returns 0. -/
theorem find_absent_sentinel_witness : find [1, 2, 3] [9] = 0 :=
  find_absent_sentinel [1, 2, 3] [9] (by decide)
    (by
      intro k hk
      simp only [List.length_cons, List.length_nil] at hk
      have hk2 : k < 3 := by omega
      interval_cases k <;> decide)

/-- The number of chunks produced by `chunks(2)` is the rounded-up half of
the input length. -/
theorem chunks2_length : ∀ (s : List Char), (chunks2 s).length = (s.length + 1) / 2
  | [] => by rfl
  | [_] => by simp [chunks2]
  | _ :: _ :: rest => by
    simp only [chunks2, List.length_cons, chunks2_length rest]
    omega

/-- C10: `bytes_from_str` is total and returns one byte per 2-character
chunk, so ceil(len/2) bytes; a 2-character chunk that `from_str_radix`
rejects decodes to the byte 0 via `unwrap_or`; and an odd final character
is padded with a trailing 0 digit, so the single character f decodes to
0xf0 = 240. -/
theorem bytes_from_str_spec (s : List Char) (a b : Char) :
    (bytes_from_str s).length = (s.length + 1) / 2 ∧
    (u8_from_str_radix16 [a, b] = none → byteOfChunk [a, b] = 0) ∧
    bytes_from_str [Char.ofNat 102] = [240] := by
  refine ⟨?_, ?_, by rfl⟩
  · simp [bytes_from_str, chunks2_length]
  · intro h
    simp [byteOfChunk, h]

/-- C10 witness: the chunk zz is not valid hexadecimal and decodes to 0. -/
theorem bytes_from_str_spec_witness :
    byteOfChunk [Char.ofNat 122, Char.ofNat 122] = 0 :=
  (bytes_from_str_spec [] (Char.ofNat 122) (Char.ofNat 122)).2.1 (by rfl)

end HelloExif
